/-
  Verification of the reactive value-propagation engine specification
  (folly::observer) against a shallow embedding.

  The repository ships the engine's test suite; the engine itself
  (SimpleObservable, ObserverManager, makeObserver and the adapters) is not
  part of the sources available here, so the engine is modelled from the
  specification text: a directed graph of nodes (externally-set sources and
  derived observers), a dirty queue with idempotent enqueue, at-most-one
  evaluation of a node per update cycle, automatic dependency recording of
  the reads performed by an evaluator, publication suppressed when the
  evaluator fails or returns a value the node considers unchanged, and
  callback invocation on every publication.
-/
import Mathlib

namespace ObserverModel

/-- Modelled from the spec: the error kinds of §7 that an evaluator can
produce — `thrown` for an evaluator that terminates abnormally
(EvaluationFailure), `nilResult` for an evaluator returning an empty/null
value where one is forbidden (NilResult, surfaced as a logic error). -/
inductive EvalErr where
  | thrown : EvalErr
  | nilResult : EvalErr
deriving DecidableEq, Repr

/-- Modelled from the spec: the body of a derived node's evaluator (the
function passed to `make_observer`).  `readO n` reads node `n`'s current
snapshot (and records the dependency, §4.2); `readIf n p t e` reads node
`n` and branches on a predicate of the value read (data-dependent reads);
`throwE` terminates abnormally; `nilE` returns a null value. -/
inductive Exp (V : Type) where
  | lit : V → Exp V
  | readO : Nat → Exp V
  | map1 : (V → V) → Exp V → Exp V
  | map2 : (V → V → V) → Exp V → Exp V → Exp V
  | readIf : Nat → (V → Bool) → Exp V → Exp V → Exp V
  | throwE : Exp V
  | nilE : Exp V

/-- Modelled from the spec: running an evaluator against the current
snapshots (`env` maps a node id to its currently published value). -/
def Exp.eval {V : Type} : Exp V → (Nat → V) → Except EvalErr V
  | .lit v, _ => .ok v
  | .readO n, env => .ok (env n)
  | .map1 f e, env => (e.eval env).map f
  | .map2 f e1 e2, env =>
      match e1.eval env with
      | .error er => .error er
      | .ok v1 =>
          match e2.eval env with
          | .error er => .error er
          | .ok v2 => .ok (f v1 v2)
  | .readIf n p t e, env => if p (env n) then t.eval env else e.eval env
  | .throwE, _ => .error .thrown
  | .nilE, _ => .error .nilResult

/-- Modelled from the spec (§4.2 dependency recorder): the reads an
evaluator performs, in order, together with the values read.  Evaluation
order matches `Exp.eval`; reads after an abnormal termination do not
happen. -/
def Exp.readsV {V : Type} : Exp V → (Nat → V) → List (Nat × V)
  | .lit _, _ => []
  | .readO n, env => [(n, env n)]
  | .map1 _ e, env => e.readsV env
  | .map2 _ e1 e2, env =>
      e1.readsV env ++
        (match e1.eval env with
         | .error _ => []
         | .ok _ => e2.readsV env)
  | .readIf n p t e, env =>
      (n, env n) :: (if p (env n) then t.readsV env else e.readsV env)
  | .throwE, _ => []
  | .nilE, _ => []

/-- Remove duplicate node ids, keeping one occurrence of each. -/
def dedupIds : List Nat → List Nat
  | [] => []
  | n :: rest => if n ∈ dedupIds rest then dedupIds rest else n :: dedupIds rest

/-- Modelled from the spec: a derived node — its evaluator, plus the
comparison deciding whether a freshly computed value counts as the same
published value as before (the "same shared_ptr" test: an evaluator that
returns a cached pointer, or a value-equality filter, suppresses
publication; plain by-value evaluators always produce a fresh pointer,
modelled by a comparison that is constantly `false`). -/
structure DerivedSpec (V : Type) where
  expr : Exp V
  sameAs : V → V → Bool

/-- Modelled from the spec (§3): the static graph — externally writable
source node ids and the derived nodes in registration order. -/
structure Graph (V : Type) where
  sources : List Nat
  derived : List (Nat × DerivedSpec V)

/-- Modelled from the spec (§3, §4): the engine state — published
snapshots, the recorded dependency set of each derived node, the live
callbacks of each node, the chronological log of callback invocations,
the chronological trace of successful evaluations (node, reads performed
with the values read, result), and the manager's dirty queue. -/
structure EState (V : Type) where
  snaps : List (Nat × V)
  deps : List (Nat × List Nat)
  cbs : List (Nat × List Nat)
  cbLog : List (Nat × V)
  trace : List (Nat × List (Nat × V) × V)
  queue : List Nat
deriving DecidableEq

/-- Association-list lookup with a default. -/
def lookupD {α : Type} (l : List (Nat × α)) (k : Nat) (d : α) : α :=
  match l.find? (fun p => p.1 == k) with
  | some p => p.2
  | none => d

/-- Association-list update (replace the binding of `k`, or append it). -/
def setRow {α : Type} (l : List (Nat × α)) (k : Nat) (v : α) : List (Nat × α) :=
  match l with
  | [] => [(k, v)]
  | p :: rest => if p.1 == k then (k, v) :: rest else p :: setRow rest k v

/-- The currently published snapshot of node `n`. -/
def snapAt {V : Type} [Inhabited V] (st : EState V) (n : Nat) : V :=
  lookupD st.snaps n default

/-- The snapshot environment an evaluator runs against. -/
def envOf {V : Type} [Inhabited V] (st : EState V) : Nat → V :=
  fun n => snapAt st n

/-- Modelled from the spec (§4.1): idempotent enqueue into the dirty
queue — multiple enqueues of a node before it is popped collapse. -/
def enqueue {V : Type} (st : EState V) (n : Nat) : EState V :=
  if n ∈ st.queue then st else { st with queue := st.queue ++ [n] }

def enqueueAll {V : Type} (st : EState V) (ns : List Nat) : EState V :=
  ns.foldl enqueue st

/-- Modelled from the spec (§3 invariant 2): the dependents of `n` are the
derived nodes whose recorded dependency set contains `n`, in registration
order. -/
def dependents {V : Type} (g : Graph V) (st : EState V) (n : Nat) : List Nat :=
  (g.derived.filter (fun p => n ∈ lookupD st.deps p.1 [])).map (fun p => p.1)

/-- Append one invocation of every live callback of node `n` with the
newly published value `v`. -/
def fireCbs {V : Type} (st : EState V) (n : Nat) (v : V) : EState V :=
  { st with cbLog := st.cbLog ++ (lookupD st.cbs n []).map (fun c => (c, v)) }

/-- Modelled from the spec (§4.3): `set` on a source — stores the new
value (a fresh snapshot) and enqueues the node; non-blocking, propagation
happens on the manager (`drain`). -/
def setValue {V : Type} (st : EState V) (n : Nat) (v : V) : EState V :=
  enqueue { st with snaps := setRow st.snaps n v } n

def applySets {V : Type} (st : EState V) (n : Nat) (vs : List V) : EState V :=
  vs.foldl (fun s v => setValue s n v) st

/-- Look up a derived node's spec. -/
def lookupDer {V : Type} (g : Graph V) (n : Nat) : Option (DerivedSpec V) :=
  match g.derived.find? (fun p => p.1 == n) with
  | some p => some p.2
  | none => none

/-- Modelled from the spec (§2, §4.1): processing one popped dirty node
within an update cycle.  `done` is the set of nodes already refreshed this
cycle (a node evaluates at most once per cycle, §9 diamond efficiency);
`changed` is the set of nodes that published this cycle.  A source fires
its callbacks and propagates to its dependents.  A derived node
re-evaluates only if a recorded dependency changed; a failed evaluation
publishes nothing and enqueues no dependents (§4.1 failure semantics); a
successful evaluation swaps in the recorded dependency set, and publishes
and propagates only when the node does not consider the new value the same
as the previous one. -/
def stepNode {V : Type} [Inhabited V] (g : Graph V) (st : EState V)
    (done changed : List Nat) (n : Nat) : EState V × List Nat × List Nat :=
  if n ∈ done then (st, done, changed)
  else if n ∈ g.sources then
    let st1 := fireCbs st n (snapAt st n)
    (enqueueAll st1 (dependents g st1 n), n :: done, n :: changed)
  else
    match lookupDer g n with
    | none => (st, n :: done, changed)
    | some d =>
        if (lookupD st.deps n []).any (fun m => m ∈ changed) then
          match d.expr.eval (envOf st) with
          | .error _ => (st, n :: done, changed)
          | .ok v =>
              let rds := d.expr.readsV (envOf st)
              let st1 := { st with
                deps := setRow st.deps n (dedupIds (rds.map (fun r => r.1))),
                trace := st.trace ++ [(n, rds, v)] }
              if d.sameAs (snapAt st n) v then (st1, n :: done, changed)
              else
                let st2 := fireCbs { st1 with snaps := setRow st1.snaps n v } n v
                (enqueueAll st2 (dependents g st2 n), n :: done, n :: changed)
        else (st, n :: done, changed)

/-- Modelled from the spec (§4.1 scheduling): drain the dirty queue — pop
and process nodes until the queue is empty or fuel runs out. -/
def drainAux {V : Type} [Inhabited V] (g : Graph V) :
    Nat → EState V → List Nat → List Nat → EState V
  | 0, st, _, _ => st
  | fuel + 1, st, done, changed =>
      match st.queue with
      | [] => st
      | n :: rest =>
          let r := stepNode g { st with queue := rest } done changed n
          drainAux g fuel r.1 r.2.1 r.2.2

/-- Fuel sufficient to drain: each node is processed at most once per
cycle, and each processing enqueues at most one entry per node. -/
def fuelFor {V : Type} (g : Graph V) (st : EState V) : Nat :=
  st.queue.length + (g.sources.length + g.derived.length + 1) *
    (g.sources.length + g.derived.length + 2)

/-- Modelled from the spec (§4.1): `wait_for_all_updates` — run the
manager until the dirty queue is empty; a fresh cycle, so every node may
evaluate (at most) once. -/
def drain {V : Type} [Inhabited V] (g : Graph V) (st : EState V) : EState V :=
  drainAux g (fuelFor g st) st [] []

/-- Modelled from the spec (§3 lifecycle): construction of the derived
nodes in registration order — each performs an initial synchronous
evaluation before its constructor returns; an initial failure propagates
to the creator and construction fails (§7 InitialEvaluationFailure /
NilResult). -/
def initDerived {V : Type} [Inhabited V] :
    EState V → List (Nat × DerivedSpec V) → Except EvalErr (EState V)
  | st, [] => .ok st
  | st, (n, d) :: rest =>
      match d.expr.eval (envOf st) with
      | .error er => .error er
      | .ok v =>
          let rds := d.expr.readsV (envOf st)
          initDerived
            { st with
              snaps := setRow st.snaps n v,
              deps := setRow st.deps n (dedupIds (rds.map (fun r => r.1))),
              trace := st.trace ++ [(n, rds, v)] }
            rest

/-- Build the engine's initial state: sources hold their initial values,
then the derived nodes are constructed in order. -/
def initGraph {V : Type} [Inhabited V] (g : Graph V)
    (srcInit : List (Nat × V)) : Except EvalErr (EState V) :=
  initDerived { snaps := srcInit, deps := [], cbs := [], cbLog := [],
                trace := [], queue := [] } g.derived

/-- Modelled from the spec (§4.4): `add_callback` — registers the callback
and invokes it once immediately with the current snapshot. -/
def addCallback {V : Type} [Inhabited V] (st : EState V) (n : Nat)
    (cb : Nat) : EState V :=
  fireCbs { st with cbs := setRow st.cbs n (lookupD st.cbs n [] ++ [cb]) } n
    (snapAt st n)

/-- Modelled from the spec (§5 cancellation): `CallbackHandle.cancel` —
after it returns, no future invocation of the callback starts. -/
def cancelCallback {V : Type} (st : EState V) (cb : Nat) : EState V :=
  { st with cbs := st.cbs.map (fun p => (p.1, p.2.filter (fun c => c ≠ cb))) }

/-- The values a given callback has been invoked with, in order. -/
def cbValues {V : Type} (st : EState V) (cb : Nat) : List V :=
  st.cbLog.filterMap (fun p => if p.1 == cb then some p.2 else none)

/-- The chronological log of the results of node `n`'s successful
evaluations (what an evaluator that records its own results would see). -/
def evalLog {V : Type} (st : EState V) (n : Nat) : List V :=
  st.trace.filterMap (fun e => if e.1 == n then some e.2.2 else none)

/-- Whether construction of the graph succeeded. -/
def constructionOk {V : Type} (e : Except EvalErr (EState V)) : Bool :=
  match e with
  | .ok _ => true
  | .error _ => false

/-- The construction error, if construction failed. -/
def constructionErr {V : Type} (e : Except EvalErr (EState V)) : Option EvalErr :=
  match e with
  | .ok _ => none
  | .error er => some er

/-- The empty engine state. -/
def emptyState (V : Type) : EState V :=
  { snaps := [], deps := [], cbs := [], cbLog := [], trace := [], queue := [] }

/-- The state after successful construction (the empty state if
construction failed; all uses are guarded by `constructionOk`). -/
def mkInit {V : Type} [Inhabited V] (g : Graph V)
    (srcInit : List (Nat × V)) : EState V :=
  match initGraph g srcInit with
  | .ok st => st
  | .error _ => emptyState V

/- The diamond scenario (claim C2): source S (node 1) = 42;
   A (node 2) = *S + 1; B (node 3) = *S + 2; X (node 4) = A * B. -/

/-- A derived node publishing a freshly allocated value on every
evaluation (an evaluator returning by value). -/
def freshDer (e : Exp Int) : DerivedSpec Int :=
  { expr := e, sameAs := fun _ _ => false }

def diamondGraph : Graph Int :=
  { sources := [1],
    derived :=
      [ (2, freshDer (.map1 (fun v => v + 1) (.readO 1))),
        (3, freshDer (.map1 (fun v => v + 2) (.readO 1))),
        (4, freshDer (.map2 (fun a b => a * b) (.readO 2) (.readO 3))) ] }

def diamondSt0 : EState Int := mkInit diamondGraph [(1, 42)]

/-- C2: in the diamond graph S = 42, A = *S + 1, B = *S + 2, X = A * B,
construction succeeds, X initially equals 43 * 44 = 1892, and after
S.set(24) followed by quiescence X equals 25 * 26 = 650. -/
theorem C2_diamond_propagation :
    constructionOk (initGraph diamondGraph [(1, 42)]) = true ∧
    snapAt diamondSt0 4 = 1892 ∧
    snapAt (drain diamondGraph (setValue diamondSt0 1 24)) 4 = 650 ∧
    (drain diamondGraph (setValue diamondSt0 1 24)).queue = [] := by
  decide

/- The failure-semantics scenario (claim C3): source S (node 1) = 41;
   derived `odd` (node 2) doubles odd values of S and terminates
   abnormally on even values; derived `waiting` (node 3) reads `odd`. -/

def nullGraph : Graph Int :=
  { sources := [1],
    derived :=
      [ (2, freshDer (.readIf 1 (fun v => v % 2 != 0)
              (.map1 (fun v => v * 2) (.readO 1)) .throwE)),
        (3, freshDer (.readO 2)) ] }

def nullSt0 : EState Int := mkInit nullGraph [(1, 41)]

def nullSt1 : EState Int := drain nullGraph (setValue nullSt0 1 2)

def nullSt2 : EState Int := drain nullGraph (setValue nullSt1 1 23)

/-- C3: after a successful evaluation (S = 41 publishes 82), an abnormal
termination of the evaluator (S.set(2)) publishes no new snapshot — the
node keeps 82, no evaluation is recorded, its dependent `waiting` is
neither re-evaluated nor changed, and the queue drains; a subsequent
successful evaluation (S.set(23)) resumes publication (46) and
propagates to the dependent again. -/
theorem C3_failure_keeps_snapshot :
    constructionOk (initGraph nullGraph [(1, 41)]) = true ∧
    snapAt nullSt0 2 = 82 ∧ snapAt nullSt0 3 = 82 ∧
    evalLog nullSt0 2 = [82] ∧ evalLog nullSt0 3 = [82] ∧
    snapAt nullSt1 2 = 82 ∧ snapAt nullSt1 3 = 82 ∧
    nullSt1.trace = nullSt0.trace ∧ nullSt1.queue = [] ∧
    snapAt nullSt2 2 = 46 ∧ snapAt nullSt2 3 = 46 ∧
    evalLog nullSt2 2 = [82, 46] ∧ evalLog nullSt2 3 = [82, 46] := by
  decide

/- Initial-evaluation failure (claim C4): a derived node whose very first
   evaluation terminates abnormally, and one whose first evaluation
   returns a null value. -/

def throwGraph : Graph Int :=
  { sources := [], derived := [(1, freshDer .throwE)] }

def nilGraph : Graph Int :=
  { sources := [], derived := [(1, freshDer .nilE)] }

/-- C4: if a derived node's first evaluation terminates abnormally,
construction fails and the abnormal termination propagates to the caller;
if the first evaluation returns a null value where one is required,
construction fails with the nil-result logic error. -/
theorem C4_initial_evaluation_failure :
    constructionErr (initGraph throwGraph []) = some .thrown ∧
    constructionErr (initGraph nilGraph []) = some .nilResult := by
  decide

/- The cycle scenario (claim C5): source S (node 1) = 0; A (node 2) reads
   S and, when *S = 1, also reads B; B (node 3) reads A; collect (node 4)
   reads S, A and B and returns S's value. -/

def cycleGraph : Graph Int :=
  { sources := [1],
    derived :=
      [ (2, freshDer (.readIf 1 (fun v => v == 1)
              (.map2 (fun _ s => s) (.readO 3) (.readO 1)) (.readO 1))),
        (3, freshDer (.readO 2)),
        (4, freshDer (.map2 (fun s _ => s) (.readO 1)
              (.map2 (fun _ b => b) (.readO 2) (.readO 3)))) ] }

def cycleSt0 : EState Int := mkInit cycleGraph [(1, 0)]

def cycleSt1 : EState Int := drain cycleGraph (setValue cycleSt0 1 1)

def cycleSt2 : EState Int := drain cycleGraph (setValue cycleSt1 1 2)

def cycleSt3 : EState Int := drain cycleGraph (setValue cycleSt2 1 3)

/-- C5: in the cyclic graph (A reads B when *S = 1, B reads A), every
update cycle terminates with the collecting observer equal to i for
S.set(i), i = 1, 2, 3; the cycle-1 trace shows that A's read of B during
its own evaluation returned B's previous snapshot 0 instead of recursively
evaluating B, and that collect observed A = 1 and B = 0 (B's previous
value) during cycle 1. -/
theorem C5_cycle_breaking :
    constructionOk (initGraph cycleGraph [(1, 0)]) = true ∧
    snapAt cycleSt0 4 = 0 ∧
    snapAt cycleSt1 4 = 1 ∧ cycleSt1.queue = [] ∧
    snapAt cycleSt2 4 = 2 ∧ cycleSt2.queue = [] ∧
    snapAt cycleSt3 4 = 3 ∧ cycleSt3.queue = [] ∧
    cycleSt1.trace =
      cycleSt0.trace ++
        [ (2, [(1, 1), (3, 0), (1, 1)], 1),
          (4, [(1, 1), (2, 1), (3, 0)], 1),
          (3, [(2, 1)], 1) ] := by
  decide

/- The value-equality filter scenario (claim C6): the source (node 1)
   holds pairs (value, id) — the id field plays the role of the snapshot's
   identity, so distinct sets are always distinct snapshots; nodes 2 and 3
   are value-equality-filtered observers of the source, which republish
   only when the value field changed (§4.5).  Callback 101 observes the
   raw source, callbacks 102 and 103 observe the filtered nodes. -/

/-- Modelled from the spec (§4.5): the value-equality filter adapter —
a derived node reading the wrapped node, republishing only when the new
value is not equal (on the value field) to the prior published value. -/
def valueFiltered (src : Nat) : DerivedSpec (Int × Int) :=
  { expr := .readO src, sameAs := fun a b => a.1 == b.1 }

def valueGraph : Graph (Int × Int) :=
  { sources := [1], derived := [(2, valueFiltered 1), (3, valueFiltered 1)] }

def valueSt0 : EState (Int × Int) :=
  addCallback (addCallback (addCallback
    (mkInit valueGraph [(1, (1, 1))]) 1 101) 2 102) 3 103

def valueSt1 : EState (Int × Int) :=
  drain valueGraph (setValue valueSt0 1 (1, 2))

def valueSt2 : EState (Int × Int) :=
  drain valueGraph (setValue valueSt1 1 (2, 3))

def valueSt3 : EState (Int × Int) :=
  drain valueGraph (setValue valueSt2 1 (2, 4))

def valueSt4 : EState (Int × Int) :=
  drain valueGraph (setValue valueSt3 1 (3, 5))

/-- C6: with source values (1,1), (1,2), (2,3), (2,4), (3,5) and equality
on the value field, the raw observer's callback fires on every set — its
id log is [1, 2, 3, 4, 5] — while the value-filtered observers' callbacks
fire only when the value field changes — their value logs are [1, 2, 3];
in particular the sets of the equal values (1,2) and (2,4) caused zero
downstream callback invocations on the filtered nodes. -/
theorem C6_value_filter_suppresses :
    constructionOk (initGraph valueGraph [(1, (1, 1))]) = true ∧
    (cbValues valueSt4 101).map (fun p => p.2) = [1, 2, 3, 4, 5] ∧
    (cbValues valueSt4 102).map (fun p => p.1) = [1, 2, 3] ∧
    (cbValues valueSt4 103).map (fun p => p.1) = [1, 2, 3] ∧
    cbValues valueSt1 102 = cbValues valueSt0 102 ∧
    cbValues valueSt3 102 = cbValues valueSt2 102 := by
  decide

/- The callback-lifecycle scenario (claim C8): a source (node 1) holding
   42 with one callback (id 7). -/

def cbGraph : Graph Int := { sources := [1], derived := [] }

def cbSt1 : EState Int := addCallback (mkInit cbGraph [(1, 42)]) 1 7

def cbSt2 : EState Int := drain cbGraph (setValue cbSt1 1 43)

def cbSt3 : EState Int := drain cbGraph (setValue (cancelCallback cbSt2 7) 1 44)

/-- C8: add_callback invokes the callback once immediately with the
current snapshot (42), then once per new publication (43) while the
handle is live; after cancel, a subsequent set (44) produces no further
invocation — the invocation log, its length (the invocation count) and
its last value are unchanged. -/
theorem C8_callback_lifecycle :
    cbValues cbSt1 7 = [42] ∧
    cbValues cbSt2 7 = [42, 43] ∧
    cbValues cbSt3 7 = [42, 43] ∧
    (cbValues cbSt3 7).length = (cbValues cbSt2 7).length ∧
    (cbValues cbSt3 7).getLastD 0 = 43 ∧
    snapAt cbSt3 1 = 44 := by
  decide

/- The AtomicObserver scenario (claim C9): two sources (node 1 = 42,
   node 2 = 12). -/

/-- Modelled from the spec: the atomically-read scalar observer adapter
(AtomicObserver) — a thin value-semantics handle holding a reference to
an underlying observer node; reading it returns that node's current
snapshot.  Copying the handle copies the reference; assigning a different
underlying observer changes only the assigned handle. -/
structure AtomicObs where
  target : Nat
deriving DecidableEq

/-- Reading an atomic observer returns the current snapshot of the
underlying observer it holds. -/
def AtomicObs.read {V : Type} [Inhabited V] (o : AtomicObs) (st : EState V) : V :=
  snapAt st o.target

def atomicGraph : Graph Int := { sources := [1, 2], derived := [] }

def atomicSt0 : EState Int := mkInit atomicGraph [(1, 42), (2, 12)]

def atomicSt1 : EState Int := drain atomicGraph (setValue atomicSt0 1 24)

def atomicSt2 : EState Int := drain atomicGraph (setValue atomicSt1 2 15)

/-- C9: with observer = AtomicObserver(source 1) and observerCopy a copy
of it, both read 42 and both receive source-1's update to 24; after the
original is reassigned to source 2 it reads 12 and then receives
source-2's update to 15, while the copy keeps tracking source 1 and still
reads 24 throughout; reassigning the copy from the original makes it read
15. -/
theorem C9_atomic_observer_copy_independence :
    (let observer : AtomicObs := ⟨1⟩
     let observerCopy : AtomicObs := observer
     observer.read atomicSt0 = 42 ∧ observerCopy.read atomicSt0 = 42 ∧
     observer.read atomicSt1 = 24 ∧ observerCopy.read atomicSt1 = 24 ∧
     (let observer2 : AtomicObs := ⟨2⟩
      observer2.read atomicSt1 = 12 ∧ observerCopy.read atomicSt1 = 24 ∧
      observer2.read atomicSt2 = 15 ∧ observerCopy.read atomicSt2 = 24 ∧
      (let observerCopy2 : AtomicObs := observer2
       observerCopy2.read atomicSt2 = 15))) := by
  decide

/- The single-chain graphs (claims C1 and C7): source S (node 1) and one
   derived node D (node 2) computing a function of *S. -/

/-- The graph with one source (node 1) and one derived node (node 2)
whose evaluator applies `f` to the source's snapshot. -/
def chainGraph (f : Int → Int) : Graph Int :=
  { sources := [1], derived := [(2, freshDer (.map1 f (.readO 1)))] }

/-- The reachable states of a chain graph: source snapshot `s`, derived
snapshot `d`, evaluation trace `tr`, queue `q`. -/
def chainState (s d : Int) (tr : List (Nat × List (Nat × Int) × Int))
    (q : List Nat) : EState Int :=
  { snaps := [(1, s), (2, d)], deps := [(2, [1])], cbs := [], cbLog := [],
    trace := tr, queue := q }

/-- The last element of a list, or `d` if the list is empty. -/
def lastD (d : Int) : List Int → Int
  | [] => d
  | v :: l => lastD v l

theorem lastD_append (l l' : List Int) : ∀ d, lastD d (l ++ l') = lastD (lastD d l) l' := by
  induction l with
  | nil => intro d; rfl
  | cons v l ih => intro d; simpa using ih v

theorem lastD_eq_getLastD (l : List Int) : ∀ d, lastD d l = l.getLastD d := by
  induction l with
  | nil => intro d; rfl
  | cons v l ih =>
      intro d
      rw [List.getLastD_cons]
      exact ih v

theorem lastD_mem_cons (l : List Int) : ∀ v, lastD v l ∈ v :: l := by
  induction l with
  | nil => intro v; simp [lastD]
  | cons w l ih =>
      intro v
      have := ih w
      simp only [lastD]
      rcases List.mem_cons.1 this with h | h
      · simp [h]
      · simp [List.mem_cons, Or.inr (Or.inr h)]

/-- Construction of a chain graph publishes the initial source value and
the initial derived evaluation. -/
theorem chain_init (f : Int → Int) (a : Int) :
    initGraph (chainGraph f) [(1, a)] =
      .ok (chainState a (f a) [(2, [(1, a)], f a)] []) := rfl

theorem chain_setValue (s d : Int) (tr) (v : Int) :
    setValue (chainState s d tr []) 1 v = chainState v d tr [1] := rfl

theorem chain_setValue_q (s d : Int) (tr) (v : Int) :
    setValue (chainState s d tr [1]) 1 v = chainState v d tr [1] := rfl

/-- Rapid `set` calls on the source coalesce: they overwrite the source
snapshot and leave a single enqueue of the source node. -/
theorem chain_applySets (vs : List Int) : ∀ (s d : Int) (tr),
    applySets (chainState s d tr [1]) 1 vs = chainState (lastD s vs) d tr [1] := by
  induction vs with
  | nil => intro s d tr; rfl
  | cons v vs ih =>
      intro s d tr
      show applySets (setValue (chainState s d tr [1]) 1 v) 1 vs = _
      rw [chain_setValue_q]
      exact ih v d tr

/-- Draining an empty queue is a no-op. -/
theorem chain_drain_empty (f : Int → Int) (s d : Int) (tr) :
    drain (chainGraph f) (chainState s d tr []) = chainState s d tr [] := rfl

/-- One update cycle of the chain graph: the source propagates, the
derived node evaluates once, records its read of the source, and
publishes `f s`; the queue drains. -/
theorem chain_drain (f : Int → Int) (s d : Int) (tr) :
    drain (chainGraph f) (chainState s d tr [1]) =
      chainState s (f s) (tr ++ [(2, [(1, s)], f s)]) [] := rfl

/- Claim C1: the chain with D = *S + 1. -/

def convGraph : Graph Int := chainGraph (fun v => v + 1)

def convSt0 : EState Int := mkInit convGraph [(1, 42)]

/-- C1: in the system S = 42, D = *S + 1, construction succeeds and D
initially reads 43; after S.set(24) and quiescence D reads 25; and for
every finite sequence of source set operations, wait_for_all_updates
returns (the dirty queue drains), after which the derived node's snapshot
equals the result of re-running its evaluator on its dependency's current
snapshot. -/
theorem C1_convergence_simple_propagation :
    constructionOk (initGraph convGraph [(1, 42)]) = true ∧
    snapAt convSt0 2 = 43 ∧
    snapAt (drain convGraph (setValue convSt0 1 24)) 2 = 25 ∧
    (drain convGraph (setValue convSt0 1 24)).queue = [] ∧
    ∀ vs : List Int,
      (drain convGraph (applySets convSt0 1 vs)).queue = [] ∧
      (Exp.map1 (fun v => v + 1) (.readO 1)).eval
          (envOf (drain convGraph (applySets convSt0 1 vs))) =
        .ok (snapAt (drain convGraph (applySets convSt0 1 vs)) 2) := by
  refine ⟨by decide, by decide, by decide, by decide, ?_⟩
  intro vs
  have h0 : convSt0 = chainState 42 43 [(2, [(1, 42)], 43)] [] := rfl
  cases vs with
  | nil => exact ⟨by decide, rfl⟩
  | cons v vs =>
      have e1 : applySets convSt0 1 (v :: vs) =
          chainState (lastD v vs) 43 [(2, [(1, 42)], 43)] [1] := by
        rw [h0]
        show applySets (setValue (chainState 42 43 _ []) 1 v) 1 vs = _
        rw [chain_setValue]
        exact chain_applySets vs v 43 _
      have e2 : drain convGraph (applySets convSt0 1 (v :: vs)) =
          chainState (lastD v vs) (lastD v vs + 1)
            ([(2, [(1, 42)], 43)] ++ [(2, [(1, lastD v vs)], lastD v vs + 1)]) [] := by
        rw [e1]
        exact chain_drain (fun x => x + 1) (lastD v vs) 43 _
      rw [e2]
      exact ⟨rfl, rfl⟩

/- Claim C7: the chain with D = *S * 10, driven by a storm of 10 000 sets.
   The manager's timing is modelled by a partition of the sets into
   batches: the sets of one batch coalesce (idempotent enqueue) and the
   manager performs one update cycle per batch. -/

def stressGraph : Graph Int := chainGraph (fun v => v * 10)

def stressSt0 : EState Int := mkInit stressGraph [(1, 0)]

/-- Run the engine over a storm of sets split into batches: the sets of a
batch are applied back to back (coalescing in the queue), then the
manager drains. -/
def runBatches (g : Graph Int) (st : EState Int) (bs : List (List Int)) : EState Int :=
  bs.foldl (fun s b => drain g (applySets s 1 b)) st

/-- The values the derived node observes: one per nonempty batch — the
latest source value at the time of that batch's update cycle. -/
def pubVals (s : Int) : List (List Int) → List Int
  | [] => []
  | [] :: rest => pubVals s rest
  | (v :: b) :: rest => lastD v b :: pubVals (lastD v b) rest

/-- The trace entry of one evaluation of the chain's derived node. -/
def chainEntry (f : Int → Int) (x : Int) : Nat × List (Nat × Int) × Int :=
  (2, [(1, x)], f x)

theorem runBatches_chain (f : Int → Int) :
    ∀ (bs : List (List Int)) (s : Int) (tr),
      runBatches (chainGraph f) (chainState s (f s) tr []) bs =
        chainState (lastD s bs.flatten) (f (lastD s bs.flatten))
          (tr ++ (pubVals s bs).map (chainEntry f)) [] := by
  intro bs
  induction bs with
  | nil =>
      intro s tr
      show chainState s (f s) tr [] = _
      simp [pubVals, lastD]
  | cons b rest ih =>
      intro s tr
      cases b with
      | nil =>
          show runBatches (chainGraph f)
                (drain (chainGraph f) (applySets (chainState s (f s) tr []) 1 []))
                rest = _
          rw [show (drain (chainGraph f)
                (applySets (chainState s (f s) tr []) 1 [])) =
              chainState s (f s) tr [] from rfl]
          rw [show (([] : List Int) :: rest).flatten = rest.flatten by simp]
          exact ih s tr
      | cons v b' =>
          have e1 : applySets (chainState s (f s) tr []) 1 (v :: b') =
              chainState (lastD v b') (f s) tr [1] := by
            show applySets (setValue (chainState s (f s) tr []) 1 v) 1 b' = _
            rw [chain_setValue]
            exact chain_applySets b' v (f s) tr
          have e2 : drain (chainGraph f)
                (applySets (chainState s (f s) tr []) 1 (v :: b')) =
              chainState (lastD v b') (f (lastD v b'))
                (tr ++ [chainEntry f (lastD v b')]) [] := by
            rw [e1]
            exact chain_drain f (lastD v b') (f s) tr
          show runBatches (chainGraph f)
                (drain (chainGraph f)
                  (applySets (chainState s (f s) tr []) 1 (v :: b'))) rest = _
          rw [e2, ih (lastD v b') (tr ++ [chainEntry f (lastD v b')])]
          have hj : lastD s (v :: (b' ++ rest.flatten)) = lastD (lastD v b') rest.flatten := by
            show lastD v (b' ++ rest.flatten) = _
            rw [lastD_append]
          simp [pubVals, hj, List.append_assoc]

theorem pubVals_subset : ∀ (bs : List (List Int)) (s y : Int),
    y ∈ pubVals s bs → y ∈ bs.flatten := by
  intro bs
  induction bs with
  | nil => intro s y h; simp [pubVals] at h
  | cons b rest ih =>
      cases b with
      | nil =>
          intro s y h
          have hy := ih s y h
          simpa using hy
      | cons v b' =>
          intro s y h
          rcases List.mem_cons.1 h with h1 | h2
          · subst h1
            have : lastD v b' ∈ v :: b' := lastD_mem_cons b' v
            simp only [List.flatten_cons]
            exact List.mem_append_left _ this
          · have hy := ih (lastD v b') y h2
            simp only [List.flatten_cons]
            exact List.mem_append_right _ hy

theorem pubVals_pairwise : ∀ (bs : List (List Int)) (s : Int),
    List.Pairwise (· ≤ ·) (s :: bs.flatten) →
    List.Pairwise (· ≤ ·) (s :: pubVals s bs) := by
  intro bs
  induction bs with
  | nil => intro s _; simp [pubVals]
  | cons b rest ih =>
      cases b with
      | nil =>
          intro s h
          have h' : List.Pairwise (· ≤ ·) (s :: rest.flatten) := by simpa using h
          exact ih s h'
      | cons v b' =>
          intro s h
          rcases List.pairwise_cons.1 h with ⟨hs, hj⟩
          rcases List.pairwise_append.1 hj with ⟨hvb, hrest, hcross⟩
          have hx : lastD v b' ∈ v :: b' := lastD_mem_cons b' v
          have hxr : List.Pairwise (· ≤ ·) (lastD v b' :: rest.flatten) :=
            List.pairwise_cons.2 ⟨fun c hc => hcross _ hx c hc, hrest⟩
          have ihx := ih (lastD v b') hxr
          show List.Pairwise (· ≤ ·) (s :: lastD v b' :: pubVals (lastD v b') rest)
          refine List.pairwise_cons.2 ⟨?_, ihx⟩
          intro y hy
          rcases List.mem_cons.1 hy with h1 | h2
          · subst h1
            exact hs _ (List.mem_append_left _ hx)
          · have : y ∈ rest.flatten := pubVals_subset rest _ y h2
            exact hs _ (List.mem_append_right _ this)

theorem pubVals_length : ∀ (bs : List (List Int)) (s : Int),
    (pubVals s bs).length ≤ bs.length := by
  intro bs
  induction bs with
  | nil => intro s; simp [pubVals]
  | cons b rest ih =>
      cases b with
      | nil =>
          intro s
          calc (pubVals s ([] :: rest)).length = (pubVals s rest).length := rfl
            _ ≤ rest.length := ih s
            _ ≤ rest.length + 1 := Nat.le_succ _
      | cons v b' =>
          intro s
          show (lastD v b' :: pubVals (lastD v b') rest).length ≤ rest.length + 1
          simpa using ih (lastD v b')

theorem pubVals_lastD : ∀ (bs : List (List Int)) (s : Int),
    lastD s (pubVals s bs) = lastD s bs.flatten := by
  intro bs
  induction bs with
  | nil => intro s; rfl
  | cons b rest ih =>
      cases b with
      | nil =>
          intro s
          show lastD s (pubVals s rest) = _
          rw [ih s]
          simp
      | cons v b' =>
          intro s
          show lastD (lastD v b') (pubVals (lastD v b') rest) = _
          rw [ih (lastD v b')]
          simp only [List.flatten_cons]
          rw [lastD_append]
          rfl

theorem lastD_map_mul10 : ∀ (l : List Int) (d : Int),
    lastD (d * 10) (l.map (fun x => x * 10)) = (lastD d l) * 10 := by
  intro l
  induction l with
  | nil => intro d; rfl
  | cons v l ih => intro d; simpa using ih v

theorem evalLog_map_entry (f : Int → Int) : ∀ (P : List Int),
    List.filterMap (fun e => if e.1 == 2 then some e.2.2 else none)
      (P.map (chainEntry f)) = P.map f := by
  intro P
  induction P with
  | nil => rfl
  | cons x P ih =>
      rw [List.map_cons, List.map_cons, List.filterMap_cons_some (by rfl), ih]
      rfl

/-- The source values of the storm: 1, 2, ..., n as integers. -/
def intsTo (n : Nat) : List Int := (List.range' 1 n).map Int.ofNat

/-- The last element of a list of naturals, or `d` if the list is empty. -/
def lastD' (d : Nat) : List Nat → Nat
  | [] => d
  | v :: l => lastD' v l

theorem lastD'_range' : ∀ (n s d : Nat), lastD' d (List.range' s (n + 1)) = s + n := by
  intro n
  induction n with
  | zero => intro s d; simp [List.range'_succ, lastD']
  | succ n ih =>
      intro s d
      rw [List.range'_succ]
      show lastD' s (List.range' (s + 1) (n + 1)) = s + (n + 1)
      rw [ih (s + 1) s]
      omega

theorem lastD_map_ofNat (l : List Nat) : ∀ d : Nat,
    lastD (Int.ofNat d) (l.map Int.ofNat) = Int.ofNat (lastD' d l) := by
  induction l with
  | nil => intro d; rfl
  | cons v l ih => intro d; simpa [lastD, lastD'] using ih v

theorem lastD_intsTo : lastD 0 (intsTo 10000) = 10000 := by
  have h := lastD_map_ofNat (List.range' 1 10000) 0
  have h2 : lastD' 0 (List.range' 1 10000) = 10000 := by
    have := lastD'_range' 9999 1 0
    simpa using this
  rw [h2] at h
  exact h

theorem pairwise_le_intsTo :
    List.Pairwise (· ≤ ·) ((0 : Int) :: intsTo 10000) := by
  refine List.pairwise_cons.2 ⟨?_, ?_⟩
  · intro y hy
    rcases List.mem_map.1 hy with ⟨n, _, rfl⟩
    exact Int.ofNat_zero_le n
  · refine (List.pairwise_map).2 ?_
    have h := List.pairwise_lt_range' 1 10000
    exact h.imp (fun hab => Int.ofNat_le.2 (Nat.le_of_lt hab))

/-- C7: for any partition of the storm set(1), ..., set(10000) into fewer
than 10000/2 - 1 update cycles (coalescing), the run quiesces, the
derived node's evaluation log is monotone non-decreasing, every logged
value is divisible by 10, the last logged and published value is
100000, and the log has fewer than 10000/2 entries. -/
theorem C7_stress_monotonicity_coalescing :
    ∀ bs : List (List Int),
      bs.flatten = intsTo 10000 →
      bs.length ≤ 4998 →
      (runBatches stressGraph stressSt0 bs).queue = [] ∧
      List.Chain' (· ≤ ·) (evalLog (runBatches stressGraph stressSt0 bs) 2) ∧
      (∀ v ∈ evalLog (runBatches stressGraph stressSt0 bs) 2, v % 10 = 0) ∧
      (evalLog (runBatches stressGraph stressSt0 bs) 2).getLastD 0 = 100000 ∧
      (evalLog (runBatches stressGraph stressSt0 bs) 2).length < 5000 ∧
      snapAt (runBatches stressGraph stressSt0 bs) 2 = 100000 := by
  intro bs h1 h2
  have hrun : runBatches stressGraph stressSt0 bs =
      chainState (lastD 0 bs.flatten) ((lastD 0 bs.flatten) * 10)
        ([(2, [(1, 0)], 0)] ++ (pubVals 0 bs).map (chainEntry (fun v => v * 10))) [] :=
    runBatches_chain (fun v => v * 10) bs 0 [(2, [(1, 0)], 0)]
  have hlast : lastD 0 bs.flatten = 10000 := by rw [h1]; exact lastD_intsTo
  have hlog : evalLog (runBatches stressGraph stressSt0 bs) 2 =
      0 :: (pubVals 0 bs).map (fun x => x * 10) := by
    rw [hrun]
    show List.filterMap _ ([(2, [(1, 0)], 0)] ++ (pubVals 0 bs).map _) = _
    rw [List.filterMap_append, evalLog_map_entry]
    rfl
  have hpw : List.Pairwise (· ≤ ·) ((0 : Int) :: pubVals 0 bs) := by
    refine pubVals_pairwise bs 0 ?_
    rw [h1]
    exact pairwise_le_intsTo
  refine ⟨by rw [hrun]; rfl, ?_, ?_, ?_, ?_, ?_⟩
  · rw [hlog]
    refine List.chain'_iff_pairwise.2 ?_
    have : (0 : Int) :: (pubVals 0 bs).map (fun x => x * 10) =
        ((0 : Int) :: pubVals 0 bs).map (fun x => x * 10) := by simp
    rw [this]
    refine (List.pairwise_map).2 ?_
    exact hpw.imp (fun h => by nlinarith)
  · intro v hv
    rw [hlog] at hv
    rcases List.mem_cons.1 hv with h | h
    · subst h; decide
    · rcases List.mem_map.1 h with ⟨x, _, rfl⟩
      omega
  · rw [hlog, ← lastD_eq_getLastD]
    show lastD 0 ((pubVals 0 bs).map (fun x => x * 10)) = 100000
    have hm : lastD (0 : Int) ((pubVals 0 bs).map (fun x => x * 10)) =
        (lastD 0 (pubVals 0 bs)) * 10 := by
      simpa using lastD_map_mul10 (pubVals 0 bs) 0
    rw [hm, pubVals_lastD, hlast]
    norm_num
  · rw [hlog]
    have := pubVals_length bs 0
    simp only [List.length_cons, List.length_map]
    omega
  · rw [hrun]
    show (lastD 0 bs.flatten) * 10 = 100000
    rw [hlast]
    norm_num

/-- C7 witness: the fully coalesced schedule — all 10000 sets in one
batch, a single update cycle — satisfies the hypotheses. -/
theorem C7_stress_monotonicity_coalescing_witness :
    ([(intsTo 10000)] :
        List (List Int)).flatten =
      intsTo 10000 ∧
    ([(intsTo 10000)] :
        List (List Int)).length ≤ 4998 ∧
    (runBatches stressGraph stressSt0
        [(intsTo 10000)]).queue = [] := by
  have hj : ([(intsTo 10000)] :
      List (List Int)).flatten = intsTo 10000 := by
    simp
  have hl : ([(intsTo 10000)] :
      List (List Int)).length ≤ 4998 := by simp
  exact ⟨hj, hl,
    (C7_stress_monotonicity_coalescing _ hj hl).1⟩

/- Claim C10: the timer-jittered throttling observer adapter. -/

/-- Modelled from the spec: the timer-jittered throttling observer
adapter (withJitter), absent from the sources here.  The adapter holds
the base observer's value as sampled at its refresh times; a refresh
triggered by a base update at time `t` is scheduled no earlier than
`t + delay`.  `lastRefreshLE rs t` is the most recent refresh time not
after `t` (time 0 is the initial sample taken at construction). -/
def lastRefreshLE (rs : List Nat) (t : Nat) : Nat :=
  rs.foldl (fun acc r => if r ≤ t then max acc r else acc) 0

/-- Modelled from the spec: the value a reader of the jittered observer
sees at time `t` — the base observer's value as of the latest refresh not
after `t` (refreshes re-read the base's current snapshot, so a delayed
refresh can never resurrect an older value). -/
def jitterValueAt (base : Nat → Int) (rs : List Nat) (t : Nat) : Int :=
  base (lastRefreshLE rs t)

theorem foldl_refresh_mono (rs : List Nat) : ∀ (t t' a a' : Nat), t ≤ t' → a ≤ a' →
    rs.foldl (fun acc r => if r ≤ t then max acc r else acc) a ≤
      rs.foldl (fun acc r => if r ≤ t' then max acc r else acc) a' := by
  induction rs with
  | nil => intro t t' a a' _ haa; simpa using haa
  | cons r rs ih =>
      intro t t' a a' htt haa
      show rs.foldl _ (if r ≤ t then max a r else a) ≤
        rs.foldl _ (if r ≤ t' then max a' r else a')
      refine ih t t' _ _ htt ?_
      by_cases h1 : r ≤ t
      · have h2 : r ≤ t' := le_trans h1 htt
        simpa [h1, h2] using max_le_max haa (le_refl r)
      · by_cases h2 : r ≤ t'
        · simpa [h1, h2] using le_trans haa (le_max_left a' r)
        · simpa [h1, h2] using haa

theorem lastRefreshLE_mono (rs : List Nat) (t t' : Nat) (h : t ≤ t') :
    lastRefreshLE rs t ≤ lastRefreshLE rs t' :=
  foldl_refresh_mono rs t t' 0 0 h (le_refl 0)

theorem foldl_refresh_zero (rs : List Nat) : ∀ (t : Nat),
    (∀ r ∈ rs, r ≤ t → r = 0) →
    rs.foldl (fun acc r => if r ≤ t then max acc r else acc) 0 = 0 := by
  induction rs with
  | nil => intro t _; rfl
  | cons r rs ih =>
      intro t h
      show rs.foldl _ (if r ≤ t then max 0 r else 0) = 0
      by_cases h1 : r ≤ t
      · have hr : r = 0 := h r (List.mem_cons_self r rs) h1
        subst hr
        simpa [h1] using ih t (fun x hx => h x (List.mem_cons_of_mem _ hx))
      · simpa [h1] using ih t (fun x hx => h x (List.mem_cons_of_mem _ hx))

/- The engine half of the no-early-refresh scenario: base source (node
   1), copy (node 2) = *base, the jitter adapter's held value as a source
   node (node 3) refreshed only by the jitter timer, and delta (node 4)
   = *copy - *lagging. -/

def jitterGraph : Graph Int :=
  { sources := [1, 3],
    derived :=
      [ (2, freshDer (.readO 1)),
        (4, freshDer (.map2 (fun c l => c - l) (.readO 2) (.readO 3))) ] }

def jitterSt0 : EState Int := mkInit jitterGraph [(1, 0), (3, 0)]

def jitterSt1 : EState Int := drain jitterGraph (setValue jitterSt0 1 42)

/-- C10: a withJitter-wrapped observer never propagates updates out of
order — with a monotone base trajectory, reads of the jittered observer
at increasing times form a monotone non-decreasing sequence, for every
set of refresh times; if every refresh respects the delay (it is the
initial sample or is at least `tset + delay`), a read before
`tset + delay` still returns the pre-update value; and updates flowing
through the other dependency path base → copy → delta of the same source
do not touch the lagging node before its delay elapses: after
base.set(42) and quiescence, base = copy = delta = 42 while the lagging
node still holds 0. -/
theorem C10_jitter_monotone_and_no_early_refresh :
    (∀ (base : Nat → Int) (rs : List Nat), Monotone base →
      ∀ t t' : Nat, t ≤ t' →
        jitterValueAt base rs t ≤ jitterValueAt base rs t') ∧
    (∀ (base : Nat → Int) (rs : List Nat) (tset delay t : Nat),
      (∀ r ∈ rs, r = 0 ∨ tset + delay ≤ r) → t < tset + delay →
      jitterValueAt base rs t = base 0) ∧
    (constructionOk (initGraph jitterGraph [(1, 0), (3, 0)]) = true ∧
     snapAt jitterSt0 4 = 0 ∧
     snapAt jitterSt1 1 = 42 ∧ snapAt jitterSt1 2 = 42 ∧
     snapAt jitterSt1 3 = 0 ∧ snapAt jitterSt1 4 = 42 ∧
     jitterSt1.queue = []) := by
  refine ⟨?_, ?_, by decide⟩
  · intro base rs hmono t t' htt
    exact hmono (lastRefreshLE_mono rs t t' htt)
  · intro base rs tset delay t hdelay ht
    have hz : lastRefreshLE rs t = 0 := by
      refine foldl_refresh_zero rs t ?_
      intro r hr hrt
      rcases hdelay r hr with h0 | hlate
      · exact h0
      · omega
    show base (lastRefreshLE rs t) = base 0
    rw [hz]

/-- C10 witness: a constant base trajectory with refreshes at times 0 and
5 is monotone and respects a delay window ending at time 5, so the
jittered reads at times 0 ≤ 3 are ordered and the read at time 2 returns
the initial value. -/
theorem C10_jitter_monotone_and_no_early_refresh_witness :
    jitterValueAt (fun _ => (7 : Int)) [0, 5] 0 ≤
      jitterValueAt (fun _ => (7 : Int)) [0, 5] 3 ∧
    jitterValueAt (fun _ => (7 : Int)) [0, 5] 2 = 7 := by
  constructor
  · exact C10_jitter_monotone_and_no_early_refresh.1 (fun _ => (7 : Int)) [0, 5]
      monotone_const 0 3 (by norm_num)
  · exact C10_jitter_monotone_and_no_early_refresh.2.1 (fun _ => (7 : Int)) [0, 5]
      1 4 2 (by decide) (by norm_num)

end ObserverModel
